import Mathlib

/-!
# AudioBridge PC receiver — verification of the core data path

Shallow embedding of `receiver.py`: the frame codec, the sequence tracker,
the jitter buffer and the audio playback callback, together with theorems
settling the spec's testable properties.

Conventions:
* a network byte is a `Nat` (values 0–255 on the wire);
* a decoded frame (`numpy` array of shape `(frames, CHANNELS)`) is a
  `List (List Int)` of rows, each row one interleaved sample-frame;
* Python's unbounded `int` is `Int`; `x & 0xFFFFFFFF` is `x % 2^32`
  (`Int.emod`, which agrees with Python's `%` for a positive modulus).
-/

namespace AudioBridge

/-- Configuration constant: stereo (`CHANNELS = 2` in receiver.py). -/
def CHANNELS : Nat := 2

/-- Configuration constant: jitter buffer fill threshold in chunks
(`BUFFER_CHUNKS = 2` in receiver.py). -/
def BUFFER_CHUNKS : Nat := 2

/-- Header size in bytes (`HEADER_SIZE = 4`). -/
def HEADER_SIZE : Nat := 4

/-- The deque capacity: `deque(maxlen=BUFFER_CHUNKS * 4)` (receiver.py line 59). -/
def DEQUE_MAXLEN : Nat := BUFFER_CHUNKS * 4

/-- 2^32, the modulus of the uint32 sequence arithmetic. -/
def U32 : Int := 4294967296

/-- A decoded audio frame: rows of interleaved samples, shape `(frames, CHANNELS)`. -/
abbrev Frame := List (List Int)

/-- Decode two bytes as a signed 16-bit little-endian sample
(`np.frombuffer(pcm_bytes, dtype=np.int16)` element decoding). -/
def int16OfBytes (b0 b1 : Nat) : Int :=
  let v : Nat := b0 + 256 * b1
  if v < 32768 then (v : Int) else (v : Int) - 65536

/-- Decode a byte list into int16 little-endian samples, two bytes per sample. -/
def toSamples : List Nat → List Int
  | [] => []
  | [_] => []
  | b0 :: b1 :: rest => int16OfBytes b0 b1 :: toSamples rest

/-- Decode 4 bytes as a big-endian uint32 (`struct.unpack(">I", data[:4])`). -/
def beUint32 (b : List Nat) : Nat :=
  match b with
  | b0 :: b1 :: b2 :: b3 :: _ => ((b0 * 256 + b1) * 256 + b2) * 256 + b3
  | _ => 0

/-- Reshape a flat sample list into rows of `n` samples
(`samples[:frames * CHANNELS].reshape((frames, CHANNELS))`): row `i` holds
elements `[i*n, (i+1)*n)`. -/
def chunkRows (n : Nat) (l : List Int) : List (List Int) :=
  (List.range (l.length / n)).map (fun i => (l.drop (i * n)).take n)

/-- Decode a post-header payload into a frame, mirroring receiver.py lines
156–168: a payload of fewer than 2 bytes is skipped; `np.frombuffer` raises
`ValueError` on a byte count that is not a multiple of 2, which the code
catches and skips; a decoded sample list is truncated to a whole number of
`CHANNELS`-sample rows, and zero rows means the packet is skipped. -/
def decodePayload (pcm : List Nat) : Option Frame :=
  if pcm.length < 2 then none
  else if pcm.length % 2 ≠ 0 then none
  else
    let samples := toSamples pcm
    let frames := samples.length / CHANNELS
    if frames = 0 then none
    else some (chunkRows CHANNELS (samples.take (frames * CHANNELS)))

/-- The jitter buffer plus the ready latch: `jitter_buffer` (a deque of
frames, head first) and `buffer_ready` (a `threading.Event`). -/
structure BufState where
  buffer : List Frame
  ready : Bool
deriving DecidableEq, Repr

/-- `deque.append` with a `maxlen`: append at the tail; if the result
exceeds the capacity, discard from the head. -/
def dequeAppend (cap : Nat) (buf : List Frame) (f : Frame) : List Frame :=
  let b := buf ++ [f]
  b.drop (b.length - cap)

/-- The producer push, receiver.py lines 170–173: append under the lock,
then set `buffer_ready` once the occupancy reaches `BUFFER_CHUNKS`
(`if len(jitter_buffer) >= BUFFER_CHUNKS and not buffer_ready.is_set()`). -/
def bufPush (b : BufState) (f : Frame) : BufState :=
  let buf := dequeAppend DEQUE_MAXLEN b.buffer f
  { buffer := buf, ready := if BUFFER_CHUNKS ≤ buf.length then true else b.ready }

/-- `popleft` guarded by the emptiness test, receiver.py lines 187–190:
returns the popped frame (or `none`) and the remaining buffer. -/
def popFrame : List Frame → Option Frame × List Frame
  | [] => (none, [])
  | f :: rest => (some f, rest)

/-- The sounddevice playback callback, receiver.py lines 186–201: pop one
frame; emit it if it matches the requested row count; if longer, emit the
first `frames` rows and push the remainder back on the head (`appendleft`);
otherwise (underrun, or a short frame) write zeros for the whole request.
Returns the rows written to `outdata` and the new buffer. -/
def audio_callback (buf : List Frame) (frames : Nat) : List (List Int) × List Frame :=
  let popped := popFrame buf
  match popped.1 with
  | some chunk =>
    if chunk.length = frames then (chunk, popped.2)
    else if frames < chunk.length then (chunk.take frames, chunk.drop frames :: popped.2)
    else (List.replicate frames (List.replicate CHANNELS 0), popped.2)
  | none => (List.replicate frames (List.replicate CHANNELS 0), popped.2)

/-- The receiver's mutable state: `last_seq` (initially `-1`), the two
counters, the jitter buffer with its ready latch, and a ghost log of every
frame ever appended to the buffer (observational only — it records each
`jitter_buffer.append`, letting "never queued" be stated). -/
structure RecvState where
  last_seq : Int
  dropped : Nat
  reordered : Nat
  buf : BufState
  pushedLog : List Frame
deriving DecidableEq, Repr

/-- The initial receiver state (receiver.py lines 53–61). -/
def initState : RecvState :=
  { last_seq := -1, dropped := 0, reordered := 0
    buf := { buffer := [], ready := false }, pushedLog := [] }

/-- Sequence tracking, receiver.py lines 136–153. Returns the updated state
and whether processing continues to the decode step (`false` encodes the
`continue` on a reordered packet, which skips the `last_seq` update). -/
def stepSeq (st : RecvState) (seq : Nat) : RecvState × Bool :=
  if 0 ≤ st.last_seq then
    let expect : Int := (st.last_seq + 1) % U32
    if (seq : Int) ≠ expect then
      let gap : Int := ((seq : Int) - st.last_seq) % U32
      if 2147483647 < gap then
        ({ st with reordered := st.reordered + 1 }, false)
      else
        let missed := gap - 1
        if 0 < missed then
          ({ st with last_seq := (seq : Int), dropped := st.dropped + missed.toNat }, true)
        else
          ({ st with last_seq := (seq : Int) }, true)
    else ({ st with last_seq := (seq : Int) }, true)
  else ({ st with last_seq := (seq : Int) }, true)

/-- Append a decoded frame, receiver.py lines 170–173, also recording it in
the ghost log. -/
def pushFrame (st : RecvState) (audio : Frame) : RecvState :=
  { st with buf := bufPush st.buf audio, pushedLog := st.pushedLog ++ [audio] }

/-- One iteration of the receive loop body for a datagram `data`,
receiver.py lines 128–173: drop datagrams shorter than the header, unpack
the sequence number, run sequence tracking (a reordered packet stops here),
decode the payload and, when a frame results, push it. -/
def processPacket (st : RecvState) (data : List Nat) : RecvState :=
  if data.length < HEADER_SIZE then st
  else
    let seq := beUint32 (data.take HEADER_SIZE)
    let pcm := data.drop HEADER_SIZE
    let tracked := stepSeq st seq
    if tracked.2 then
      match decodePayload pcm with
      | none => tracked.1
      | some audio => pushFrame tracked.1 audio
    else tracked.1

/-- An operation on the shared buffer: a producer push (receive thread) or
one playback-callback invocation requesting `frames` rows (audio thread). -/
inductive BufOp where
  | push : Frame → BufOp
  | tick : Nat → BufOp
deriving DecidableEq, Repr

/-- Apply one buffer operation: a push runs `bufPush`; a callback tick
replaces the buffer by what `audio_callback` leaves (the callback never
touches `buffer_ready`). -/
def bufStep (b : BufState) : BufOp → BufState
  | .push f => bufPush b f
  | .tick frames => { b with buffer := (audio_callback b.buffer frames).2 }

/-- Run a session's buffer operations from the initial empty, not-ready state. -/
def runOps (ops : List BufOp) : BufState :=
  ops.foldl bufStep { buffer := [], ready := false }

/-- Build a wire datagram: 4-byte big-endian header (sequence < 256 here)
followed by the payload bytes. -/
def mkPacket (seq : Nat) (payload : List Nat) : List Nat :=
  [0, 0, 0, seq] ++ payload

/-- The end-to-end scenario of the spec: sequences 0–99 with 37 and 52
omitted, and a stale datagram with sequence 58 (payload marker bytes
`[200, 1, 200, 1]`, decoding to the frame `[[456, 456]]`) arriving right
after sequence 60. Every regular packet `i` carries payload `[i, 0, i, 0]`. -/
def scenarioPackets : List (List Nat) :=
  let sent := (List.range 100).filter (fun i => i ≠ 37 ∧ i ≠ 52)
  (sent.filter (fun i => i ≤ 60)).map (fun i => mkPacket i [i, 0, i, 0])
    ++ [mkPacket 58 [200, 1, 200, 1]]
    ++ (sent.filter (fun i => 60 < i)).map (fun i => mkPacket i [i, 0, i, 0])

/-- The receiver state after running the whole scenario. -/
def scenarioFinal : RecvState := scenarioPackets.foldl processPacket initState

/-! ## Helper lemmas -/

theorem stepSeq_keeps_buf (st : RecvState) (q : Nat) :
    (stepSeq st q).1.buf = st.buf ∧ (stepSeq st q).1.pushedLog = st.pushedLog := by
  simp only [stepSeq]
  split_ifs <;> exact ⟨rfl, rfl⟩

theorem stepSeq_inorder (st : RecvState) (q : Nat) (h0 : 0 ≤ st.last_seq)
    (h : (q : Int) = (st.last_seq + 1) % U32) :
    stepSeq st q = ({ st with last_seq := (q : Int) }, true) := by
  simp [stepSeq, h0, h]

theorem stepSeq_reorder (st : RecvState) (q : Nat) (h0 : 0 ≤ st.last_seq)
    (hne : (q : Int) ≠ (st.last_seq + 1) % U32)
    (hgap : 2147483647 < ((q : Int) - st.last_seq) % U32) :
    stepSeq st q = ({ st with reordered := st.reordered + 1 }, false) := by
  simp [stepSeq, h0, hne, hgap]

theorem stepSeq_gap (st : RecvState) (q : Nat) (h0 : 0 ≤ st.last_seq)
    (hne : (q : Int) ≠ (st.last_seq + 1) % U32)
    (hle : ((q : Int) - st.last_seq) % U32 ≤ 2147483647)
    (hmiss : 1 < ((q : Int) - st.last_seq) % U32) :
    stepSeq st q = ({ st with
        last_seq := (q : Int),
        dropped := st.dropped + (((q : Int) - st.last_seq) % U32 - 1).toNat }, true) := by
  have h1 : ¬ 2147483647 < ((q : Int) - st.last_seq) % U32 := not_lt.mpr hle
  have h2 : 0 < ((q : Int) - st.last_seq) % U32 - 1 := by omega
  simp [stepSeq, h0, hne, h1, h2]

/-! ## C6, C8, C9, C10: jitter buffer FIFO and the playback callback -/

/-- C6: three frames pushed in order into a buffer that does not overflow
are returned by three successive pops in the same order — append at the
tail, remove at the head, a popped frame is never re-observed. -/
theorem fifo_order_c6 (f1 f2 f3 : Frame) :
    popFrame (bufPush (bufPush (bufPush { buffer := [], ready := false } f1) f2) f3).buffer
      = (some f1, [f2, f3]) ∧
    popFrame [f2, f3] = (some f2, [f3]) ∧
    popFrame [f3] = (some f3, []) :=
  ⟨rfl, rfl, rfl⟩

/-- C8: the playback callback on an empty jitter buffer reports empty
without corrupting anything, writes zero rows for exactly the requested
span, and leaves the buffer empty, so every repeated invocation behaves
identically. -/
theorem underrun_silence_c8 (frames : Nat) :
    audio_callback [] frames = (List.replicate frames (List.replicate CHANNELS 0), []) ∧
    (audio_callback [] frames).1.length = frames ∧
    (∀ row ∈ (audio_callback [] frames).1, row = List.replicate CHANNELS 0) ∧
    audio_callback (audio_callback [] frames).2 frames = audio_callback [] frames := by
  refine ⟨rfl, by simp [audio_callback, popFrame], ?_, rfl⟩
  intro row hrow
  simp only [audio_callback, popFrame] at hrow
  exact List.eq_of_mem_replicate hrow

/-- C8 witness: the callback on the empty buffer with 3 requested rows. -/
theorem underrun_silence_c8_witness :
    audio_callback [] 3 = (List.replicate 3 (List.replicate CHANNELS 0), []) ∧
    ([0, 0] : List Int) = List.replicate CHANNELS 0 :=
  ⟨(underrun_silence_c8 3).1, (underrun_silence_c8 3).2.2.1 [0, 0] (by decide)⟩

/-- C9: when the popped frame holds strictly more rows than requested, the
callback emits exactly the first `frames` rows and pushes the remainder
back on the head of the buffer, so the remainder is the next frame popped. -/
theorem chunk_pushback_c9 (chunk : Frame) (rest : List Frame) (frames : Nat)
    (h : frames < chunk.length) :
    audio_callback (chunk :: rest) frames = (chunk.take frames, chunk.drop frames :: rest) ∧
    (chunk.take frames).length = frames ∧
    popFrame (audio_callback (chunk :: rest) frames).2 = (some (chunk.drop frames), rest) := by
  have hne : chunk.length ≠ frames := by omega
  have heq : audio_callback (chunk :: rest) frames
      = (chunk.take frames, chunk.drop frames :: rest) := by
    simp [audio_callback, popFrame, hne, h]
  refine ⟨heq, ?_, by rw [heq]; rfl⟩
  rw [List.length_take]
  omega

/-- C9 witness: a 3-row chunk with 2 rows requested. -/
theorem chunk_pushback_c9_witness :
    audio_callback [[[1, 2], [3, 4], [5, 6]]] 2
      = ([[1, 2], [3, 4]], [[[5, 6]]]) :=
  (chunk_pushback_c9 [[1, 2], [3, 4], [5, 6]] [] 2 (by decide)).1

/-- C10: when the popped frame holds strictly fewer rows than requested
(but at least one), the callback discards it and writes zeros for the whole
request: the partial audio is neither emitted nor pushed back. -/
theorem short_chunk_silence_c10 (chunk : Frame) (rest : List Frame) (frames : Nat)
    (_h0 : 0 < chunk.length) (h : chunk.length < frames) :
    audio_callback (chunk :: rest) frames
      = (List.replicate frames (List.replicate CHANNELS 0), rest) := by
  have hne : chunk.length ≠ frames := by omega
  have hnl : ¬ frames < chunk.length := by omega
  simp [audio_callback, popFrame, hne, hnl]

/-- C10 witness: a 2-row chunk with 5 rows requested is dropped and
replaced by silence. -/
theorem short_chunk_silence_c10_witness :
    audio_callback [[[1, 2], [3, 4]]] 5
      = (List.replicate 5 (List.replicate CHANNELS 0), []) :=
  short_chunk_silence_c10 [[1, 2], [3, 4]] [] 5 (by decide) (by decide)

/-! ## C5: bounded buffer growth -/

theorem length_dequeAppend (cap : Nat) (buf : List Frame) (f : Frame) :
    (dequeAppend cap buf f).length = min (buf.length + 1) cap := by
  simp [dequeAppend]
  omega

theorem foldl_dequeAppend_le (cap : Nat) :
    ∀ (fs : List Frame) (buf : List Frame), buf.length ≤ cap →
      (fs.foldl (dequeAppend cap) buf).length ≤ cap
  | [], _, h => h
  | f :: fs, buf, _ => by
    simp only [List.foldl_cons]
    apply foldl_dequeAppend_le cap fs
    rw [length_dequeAppend]
    omega

/-- C5: the jitter buffer's occupancy never exceeds the overflow cap of
`BUFFER_CHUNKS * 4 = 8` entries, whatever sequence of pushes happens; a
push at cap occupancy evicts the head entry and appends the new frame at
the tail. -/
theorem bounded_buffer_c5 (fs : List Frame) (buf : List Frame)
    (h : buf.length ≤ DEQUE_MAXLEN) :
    (fs.foldl (dequeAppend DEQUE_MAXLEN) buf).length ≤ DEQUE_MAXLEN ∧
    DEQUE_MAXLEN = BUFFER_CHUNKS * 4 ∧ DEQUE_MAXLEN = 8 ∧
    (∀ (b : List Frame) (f : Frame), b.length = DEQUE_MAXLEN →
      dequeAppend DEQUE_MAXLEN b f = b.tail ++ [f]) := by
  refine ⟨foldl_dequeAppend_le _ fs buf h, rfl, rfl, ?_⟩
  intro b f hb
  have hb1 : 1 ≤ b.length := by rw [hb]; decide
  simp only [dequeAppend, List.length_append, List.length_singleton]
  rw [hb]
  have : DEQUE_MAXLEN + 1 - DEQUE_MAXLEN = 1 := by omega
  rw [this, List.drop_append_of_le_length hb1, List.drop_one]

/-- C5 witness: ten pushes of distinct one-row frames starting from the
empty buffer stay at occupancy 8, and a push at cap evicts the head. -/
theorem bounded_buffer_c5_witness :
    (((List.range 10).map (fun i => ([[(i : Int), 0]] : Frame))).foldl
        (dequeAppend DEQUE_MAXLEN) []).length ≤ DEQUE_MAXLEN ∧
    dequeAppend DEQUE_MAXLEN (List.replicate 8 ([[5, 5]] : Frame)) [[7, 7]]
      = (List.replicate 8 ([[5, 5]] : Frame)).tail ++ [[[7, 7]]] :=
  ⟨(bounded_buffer_c5 _ [] (by decide)).1,
   (bounded_buffer_c5 [] [] (by decide)).2.2.2 _ _ (by decide)⟩

/-! ## C3: partial-frame codec (corrected) -/

/-- C3 counterexample: a payload of `CHANNELS * 2 + 1 = 5` bytes is not
decoded to one frame — `np.frombuffer` rejects the odd byte count
(`ValueError`, caught and skipped), so no frame at all is produced. -/
theorem odd_payload_cex_c3 :
    ([1, 0, 2, 0, 3] : List Nat).length = CHANNELS * 2 + 1 ∧
    decodePayload [1, 0, 2, 0, 3] = none := by decide

theorem toSamples_length : (pcm : List Nat) → (toSamples pcm).length = pcm.length / 2
  | [] => by simp [toSamples]
  | [_] => by simp [toSamples]
  | _ :: _ :: rest => by
    simp only [toSamples, List.length_cons, toSamples_length rest]
    omega

/-- C3 as amended: a payload whose byte count is odd (such as
`CHANNELS * 2 + 1`) is rejected whole, producing no frame; a payload of
even byte count of at least 4 decodes to the largest whole number of
`CHANNELS`-sample rows, row `i` being samples `[i*CHANNELS, (i+1)*CHANNELS)`
of the decoded stream, any trailing samples being discarded. -/
theorem payload_truncation_c3 (pcm : List Nat) :
    (pcm.length % 2 = 1 → decodePayload pcm = none) ∧
    (pcm.length % 2 = 0 → 4 ≤ pcm.length →
      ∃ rows : Frame, decodePayload pcm = some rows ∧
        rows.length = pcm.length / 2 / CHANNELS ∧
        (∀ row ∈ rows, row.length = CHANNELS) ∧
        (∀ (i : Nat) (hi : i < rows.length),
          rows.get ⟨i, hi⟩ = ((toSamples pcm).drop (i * CHANNELS)).take CHANNELS)) := by
  constructor
  · intro hodd
    by_cases hlt : pcm.length < 2
    · simp [decodePayload, hlt]
    · have : pcm.length % 2 ≠ 0 := by omega
      simp [decodePayload, hlt, this]
  · intro heven h4
    have hlt : ¬ pcm.length < 2 := by omega
    have hsl : (toSamples pcm).length = pcm.length / 2 := toSamples_length pcm
    have hfr : (toSamples pcm).length / CHANNELS ≠ 0 := by
      simp only [CHANNELS, hsl]
      omega
    refine ⟨chunkRows CHANNELS
        ((toSamples pcm).take ((toSamples pcm).length / CHANNELS * CHANNELS)),
      by simp [decodePayload, hlt, heven, hfr], ?_, ?_, ?_⟩
    · simp only [CHANNELS, chunkRows, List.length_map, List.length_range,
        List.length_take, hsl]
      omega
    · intro row hrow
      simp only [CHANNELS, chunkRows, List.mem_map, List.mem_range, List.length_take] at hrow
      obtain ⟨i, hi, rfl⟩ := hrow
      simp only [CHANNELS, List.length_take, List.length_drop]
      omega
    · intro i hi
      have hi' := hi
      simp only [CHANNELS, chunkRows, List.length_map, List.length_range,
        List.length_take] at hi'
      simp only [CHANNELS, chunkRows, List.get_eq_getElem, List.getElem_map,
        List.getElem_range]
      rw [List.drop_take, List.take_take]
      congr 1
      omega

/-- C3 amended-claim witness: the 6-byte payload `[1, 0, 2, 0, 3, 0]`
(3 samples) decodes to exactly one 2-sample row, discarding the third
sample. -/
theorem payload_truncation_c3_witness :
    ∃ rows : Frame, decodePayload [1, 0, 2, 0, 3, 0] = some rows ∧
      rows.length = ([1, 0, 2, 0, 3, 0] : List Nat).length / 2 / CHANNELS ∧
      (∀ row ∈ rows, row.length = CHANNELS) ∧
      (∀ (i : Nat) (hi : i < rows.length),
        rows.get ⟨i, hi⟩ = ((toSamples [1, 0, 2, 0, 3, 0]).drop (i * CHANNELS)).take CHANNELS) :=
  (payload_truncation_c3 [1, 0, 2, 0, 3, 0]).2 (by decide) (by decide)

/-! ## C4: malformed packets (corrected) -/

/-- C4 counterexample: a datagram with a valid header (sequence 7) but a
1-byte payload, arriving when `last_seq = 5`, still runs sequence tracking:
`last_seq` becomes 7 and `dropped_packets` rises by 1, contradicting the
claim that such a packet leaves `last_seen` and the counters untouched. -/
theorem short_payload_cex_c4 :
    (([0, 0, 0, 7, 9] : List Nat).drop HEADER_SIZE).length < 2 ∧
    (processPacket { initState with last_seq := 5 } [0, 0, 0, 7, 9]).last_seq = 7 ∧
    (processPacket { initState with last_seq := 5 } [0, 0, 0, 7, 9]).dropped = 1 ∧
    ({ initState with last_seq := 5 } : RecvState).dropped = 0 := by decide

/-- C4 as amended: a datagram too short for the 4-byte header is discarded
with no state change at all; a datagram with a valid header but a payload
of fewer than 2 bytes produces no frame and queues nothing, but still
undergoes sequence tracking (its effect is exactly `stepSeq`). -/
theorem malformed_handling_c4 (st : RecvState) (data : List Nat) :
    (data.length < HEADER_SIZE → processPacket st data = st) ∧
    (HEADER_SIZE ≤ data.length → (data.drop HEADER_SIZE).length < 2 →
      processPacket st data = (stepSeq st (beUint32 (data.take HEADER_SIZE))).1 ∧
      (processPacket st data).buf.buffer = st.buf.buffer ∧
      (processPacket st data).pushedLog = st.pushedLog) := by
  constructor
  · intro h
    simp [processPacket, h]
  · intro h4 hshort
    have hnlt : ¬ data.length < HEADER_SIZE := by omega
    have hdec : decodePayload (data.drop HEADER_SIZE) = none := by
      unfold decodePayload
      rw [if_pos hshort]
    have hmain : processPacket st data = (stepSeq st (beUint32 (data.take HEADER_SIZE))).1 := by
      simp only [processPacket, hnlt, if_false, hdec]
      split <;> rfl
    refine ⟨hmain, ?_, ?_⟩
    · rw [hmain, (stepSeq_keeps_buf st _).1]
    · rw [hmain, (stepSeq_keeps_buf st _).2]

/-- C4 amended-claim witness: a 2-byte datagram is a no-op; a 5-byte
datagram with header sequence 7 and payload `[9]` acts exactly as sequence
tracking alone. -/
theorem malformed_handling_c4_witness :
    processPacket { initState with last_seq := 5 } [1, 2] = { initState with last_seq := 5 } ∧
    processPacket { initState with last_seq := 5 } [0, 0, 0, 7, 9]
      = (stepSeq { initState with last_seq := 5 } (beUint32 [0, 0, 0, 7])).1 :=
  ⟨(malformed_handling_c4 _ [1, 2]).1 (by decide),
   ((malformed_handling_c4 { initState with last_seq := 5 } [0, 0, 0, 7, 9]).2
      (by decide) (by decide)).1⟩

/-! ## C1: sequence classification -/

/-- C1: from any prior state with `last_seq = s` (an observed 32-bit
sequence), the incoming sequence `(s+1) mod 2^32` is in order — including
the wraparound `s = 2^32 - 1` with incoming `0` — updating `last_seq` and
no counter; `(s+5) mod 2^32` is a gap adding 4 to `dropped_packets` and
updating `last_seq`; `(s-1) mod 2^32` is a reorder, incrementing
`reordered_packets` and leaving `last_seq` untouched; and whenever
processing continues past sequence tracking (every non-reorder case),
`last_seq` has been set to the incoming sequence. -/
theorem seq_classification_c1 (st : RecvState) (s : Nat)
    (_hlt : s < 4294967296) (hs : st.last_seq = (s : Int)) :
    stepSeq st ((s + 1) % 4294967296)
      = ({ st with last_seq := (((s + 1) % 4294967296 : Nat) : Int) }, true) ∧
    stepSeq st ((s + 5) % 4294967296)
      = ({ st with
            last_seq := (((s + 5) % 4294967296 : Nat) : Int),
            dropped := st.dropped + 4 }, true) ∧
    stepSeq st ((s + 4294967295) % 4294967296)
      = ({ st with reordered := st.reordered + 1 }, false) ∧
    (∀ q : Nat, (stepSeq st q).2 = true → (stepSeq st q).1.last_seq = (q : Int)) := by
  have h0 : 0 ≤ st.last_seq := by rw [hs]; positivity
  refine ⟨?_, ?_, ?_, ?_⟩
  · apply stepSeq_inorder st _ h0
    rw [hs]
    simp only [U32]
    omega
  · have hne : (((s + 5) % 4294967296 : Nat) : Int) ≠ (st.last_seq + 1) % U32 := by
      rw [hs]; simp only [U32]; omega
    have hgap : ((((s + 5) % 4294967296 : Nat) : Int) - st.last_seq) % U32 = 5 := by
      rw [hs]; simp only [U32]; omega
    have h := stepSeq_gap st ((s + 5) % 4294967296) h0 hne
      (by rw [hgap]; omega) (by rw [hgap]; omega)
    rw [hgap] at h
    norm_num at h
    exact h
  · apply stepSeq_reorder st _ h0
    · rw [hs]; simp only [U32]; omega
    · rw [hs]; simp only [U32]; omega
  · intro q hq
    simp only [stepSeq] at hq ⊢
    split_ifs at hq ⊢ <;> simp_all

/-- C1 witness: at `last_seq = 4294967295` the wraparound successor `0` is
in order, `4` is a gap of 4 dropped packets, and `4294967294` is a
reorder leaving `last_seq` alone. -/
theorem seq_classification_c1_witness :
    stepSeq { initState with last_seq := 4294967295 } 0
      = ({ initState with last_seq := ((0 : Nat) : Int) }, true) ∧
    stepSeq { initState with last_seq := 4294967295 } 4
      = ({ initState with last_seq := ((4 : Nat) : Int), dropped := 4 }, true) ∧
    stepSeq { initState with last_seq := 4294967295 } 4294967294
      = ({ initState with last_seq := 4294967295, reordered := 1 }, false) := by
  have h := seq_classification_c1 { initState with last_seq := 4294967295 }
    4294967295 (by decide) (by decide)
  refine ⟨?_, ?_, ?_⟩
  · have h1 := h.1
    norm_num at h1 ⊢
    exact h1
  · have h2 := h.2.1
    norm_num at h2 ⊢
    exact h2
  · have h3 := h.2.2.1
    norm_num at h3 ⊢
    exact h3

/-! ## C2: reordered packets are never queued; end-to-end scenario -/

set_option maxRecDepth 4000

/-- C2: a packet classified as reordered only increments
`reordered_packets` — the buffer, the ghost push log, `last_seq` and
`dropped_packets` are all untouched, so its payload is never queued; and in
the 100-packet scenario (sequences 0–99, 37 and 52 omitted, a stale 58
arriving right after 60) the final counters are `dropped_packets = 2` and
`reordered_packets = 1`, and the stale packet's decoded payload
`[[456, 456]]` never enters the push log. -/
theorem reordered_never_queued_c2 :
    (∀ (st : RecvState) (data : List Nat), HEADER_SIZE ≤ data.length →
      0 ≤ st.last_seq →
      ((beUint32 (data.take HEADER_SIZE) : Int) ≠ (st.last_seq + 1) % U32) →
      2147483647 < ((beUint32 (data.take HEADER_SIZE) : Int) - st.last_seq) % U32 →
      processPacket st data = { st with reordered := st.reordered + 1 }) ∧
    scenarioFinal.dropped = 2 ∧
    scenarioFinal.reordered = 1 ∧
    ([[456, 456]] : Frame) ∉ scenarioFinal.pushedLog ∧
    decodePayload ((mkPacket 58 [200, 1, 200, 1]).drop HEADER_SIZE) = some [[456, 456]] := by
  refine ⟨?_, by decide, by decide, by decide, by decide⟩
  intro st data h4 h0 hne hgap
  have hnlt : ¬ data.length < HEADER_SIZE := by omega
  simp only [processPacket, hnlt, if_false,
    stepSeq_reorder st (beUint32 (data.take HEADER_SIZE)) h0 hne hgap]
  rfl

/-- C2 witness: the stale datagram of the scenario (sequence 58 arriving
while `last_seq = 60`) is counted as reordered and queues nothing. -/
theorem reordered_never_queued_c2_witness :
    processPacket { initState with last_seq := 60 } (mkPacket 58 [200, 1, 200, 1])
      = { initState with last_seq := 60, reordered := 1 } :=
  (reordered_never_queued_c2).1 { initState with last_seq := 60 }
    (mkPacket 58 [200, 1, 200, 1]) (by decide) (by decide) (by decide) (by decide)

/-! ## C7: the ready signal is a one-shot latch -/

theorem prefix_snoc_iff {α : Type _} (p l : List α) (a : α) :
    p <+: l ++ [a] ↔ p <+: l ∨ p = l ++ [a] := by
  constructor
  · rintro ⟨t, ht⟩
    rcases List.eq_nil_or_concat t with rfl | ⟨t2, b, rfl⟩
    · right
      simpa using ht
    · left
      rw [List.concat_eq_append, ← List.append_assoc] at ht
      exact ⟨t2, (List.append_inj' ht rfl).1⟩
  · rintro (⟨t, rfl⟩ | rfl)
    · exact ⟨t ++ [a], by rw [List.append_assoc]⟩
    · exact List.prefix_rfl

theorem bufStep_ready_mono (b : BufState) (op : BufOp) (h : b.ready = true) :
    (bufStep b op).ready = true := by
  cases op with
  | push f =>
    simp only [bufStep, bufPush]
    split <;> simp [h]
  | tick n => exact h

theorem bufPush_ready_iff (b : BufState) (f : Frame) :
    (bufPush b f).ready = true ↔
      BUFFER_CHUNKS ≤ (bufPush b f).buffer.length ∨ b.ready = true := by
  simp only [bufPush]
  split <;> simp_all

theorem tick_length_le (buf : List Frame) (n : Nat) :
    ((audio_callback buf n).2).length ≤ buf.length := by
  cases buf with
  | nil => simp [audio_callback, popFrame]
  | cons chunk rest =>
    simp only [audio_callback, popFrame]
    split_ifs <;> simp only [List.length_cons] <;> omega

theorem runOps_snoc (ops : List BufOp) (op : BufOp) :
    runOps (ops ++ [op]) = bufStep (runOps ops) op := by
  simp [runOps, List.foldl_append]

theorem ready_mono_ext : ∀ (ext ops : List BufOp),
    (runOps ops).ready = true → (runOps (ops ++ ext)).ready = true
  | [], _, h => by simpa using h
  | op :: ext, ops, h => by
    have h2 : (runOps (ops ++ [op])).ready = true := by
      rw [runOps_snoc]
      exact bufStep_ready_mono _ _ h
    have h3 := ready_mono_ext ext (ops ++ [op]) h2
    simpa [List.append_assoc] using h3

theorem ready_iff_reached (ops : List BufOp) :
    (runOps ops).ready = true ↔
      ∃ p, p <+: ops ∧ BUFFER_CHUNKS ≤ (runOps p).buffer.length := by
  induction ops using List.reverseRecOn with
  | nil =>
    constructor
    · intro h
      simp [runOps] at h
    · rintro ⟨p, hp, hlen⟩
      rw [List.prefix_nil.mp hp] at hlen
      simp [runOps, BUFFER_CHUNKS] at hlen
  | append_singleton l op ih =>
    rw [runOps_snoc]
    constructor
    · intro h
      cases op with
      | tick n =>
        obtain ⟨p, hp, hlen⟩ := ih.mp h
        exact ⟨p, hp.trans (List.prefix_append l [BufOp.tick n]), hlen⟩
      | push f =>
        rcases (bufPush_ready_iff (runOps l) f).mp h with hlen | hready
        · exact ⟨l ++ [BufOp.push f], List.prefix_rfl, by rw [runOps_snoc]; exact hlen⟩
        · obtain ⟨p, hp, hlen⟩ := ih.mp hready
          exact ⟨p, hp.trans (List.prefix_append l [BufOp.push f]), hlen⟩
    · rintro ⟨p, hp, hlen⟩
      rcases (prefix_snoc_iff p l op).mp hp with hp2 | rfl
      · exact bufStep_ready_mono _ _ (ih.mpr ⟨p, hp2, hlen⟩)
      · rw [runOps_snoc] at hlen
        cases op with
        | push f => exact (bufPush_ready_iff _ f).mpr (Or.inl hlen)
        | tick n =>
          have hle : BUFFER_CHUNKS ≤ (runOps l).buffer.length := by
            have ht := tick_length_le (runOps l).buffer n
            simp only [bufStep] at hlen
            omega
          exact bufStep_ready_mono _ _ (ih.mpr ⟨l, List.prefix_rfl, hle⟩)

/-- C7: the ready signal is a one-shot latch over any session of pushes and
playback callbacks from the empty, unset state: it is set exactly when some
prefix of the session has buffer occupancy at or above the fill threshold
`BUFFER_CHUNKS` (never before that point); it never resets, surviving any
later drain; and occupancy first reaches the threshold only through a push,
so the signal fires at the first push that brings the occupancy up to the
threshold. -/
theorem ready_signal_c7 (ops : List BufOp) :
    ((runOps ops).ready = true ↔
      ∃ p, p <+: ops ∧ BUFFER_CHUNKS ≤ (runOps p).buffer.length) ∧
    (∀ ext, (runOps ops).ready = true → (runOps (ops ++ ext)).ready = true) ∧
    (∀ op, (runOps ops).buffer.length < BUFFER_CHUNKS →
      BUFFER_CHUNKS ≤ (runOps (ops ++ [op])).buffer.length →
      ∃ f, op = BufOp.push f) := by
  refine ⟨ready_iff_reached ops, fun ext h => ready_mono_ext ext ops h, ?_⟩
  intro op hlt hge
  rw [runOps_snoc] at hge
  cases op with
  | push f => exact ⟨f, rfl⟩
  | tick n =>
    have ht := tick_length_le (runOps ops).buffer n
    simp only [bufStep] at hge
    omega

/-- C7 witness: two pushes from the empty state set the signal — the second
push brings the occupancy to the threshold. -/
theorem ready_signal_c7_witness :
    (runOps [BufOp.push [[0, 0]], BufOp.push [[1, 1]]]).ready = true :=
  (ready_signal_c7 [BufOp.push [[0, 0]], BufOp.push [[1, 1]]]).1.mpr
    ⟨[BufOp.push [[0, 0]], BufOp.push [[1, 1]]], List.prefix_rfl, by decide⟩

end AudioBridge
